import Mathlib

/-!
Verification of the research-knowledge-graph construction engine.

The Python source is shallowly embedded: strings are lists of Unicode
codepoints (`List Nat`, ASCII semantics for the case functions, matching
the inputs the system handles), dictionaries are association lists,
database tables are in-memory lists, and the stateful services become
pure folds over explicit state.
-/

namespace RKG

/-! ## Character-level primitives (ASCII fragment of the Python `str` methods) -/

/-- Whitespace characters recognised by Python `str.split` / `str.strip`
(space, tab, newline, carriage return, vertical tab, form feed). -/
def isSpaceC (c : Nat) : Bool :=
  c == 32 || c == 9 || c == 10 || c == 13 || c == 11 || c == 12

/-- Characters kept by `sanitize_string` (src/utils/text_sanitizer.py):
null bytes and control characters 0x00-0x08, 0x0B-0x0C, 0x0E-0x1F are
removed; tab (9), newline (10), carriage return (13) and everything
at or above 0x20 are kept. -/
def keepC (c : Nat) : Bool :=
  32 ≤ c || c == 9 || c == 10 || c == 13

/-- `sanitize_string`: drop null bytes and the problematic control characters. -/
def sanitizeString (s : List Nat) : List Nat :=
  s.filter keepC

/-- Python `str.strip()`: drop leading and trailing whitespace. -/
def pyStrip (s : List Nat) : List Nat :=
  (((s.dropWhile isSpaceC).reverse).dropWhile isSpaceC).reverse

/-- Lowercase ASCII letter. -/
def isLowerC (c : Nat) : Bool := 97 ≤ c && c ≤ 122

/-- Uppercase ASCII letter. -/
def isUpperC (c : Nat) : Bool := 65 ≤ c && c ≤ 90

/-- A cased character (ASCII letters). -/
def isCasedC (c : Nat) : Bool := isUpperC c || isLowerC c

/-- Python `str.upper` on one character (ASCII). -/
def toUpperC (c : Nat) : Nat := if isLowerC c then c - 32 else c

/-- Python `str.lower` on one character (ASCII). -/
def toLowerC (c : Nat) : Nat := if isUpperC c then c + 32 else c

/-- Python `str.lower()` on a whole string. -/
def lowerStr (s : List Nat) : List Nat := s.map toLowerC

/-- Python `word.isupper()`: at least one cased character and no
lowercase cased character. -/
def pyIsUpper (w : List Nat) : Bool :=
  w.any isCasedC && w.all (fun c => !isLowerC c)

/-- Python `word.capitalize()`: first character uppercased, the rest
lowercased. -/
def pyCapitalize : List Nat → List Nat
  | [] => []
  | c :: rest => toUpperC c :: rest.map toLowerC

/-! ## `label.split()` and `" ".join(...)` -/

/-- Accumulator-based worker for Python `str.split()` (split on
whitespace runs, discarding empty pieces).  `acc` holds the current
word reversed. -/
def splitWsAux : List Nat → List Nat → List (List Nat)
  | [], acc => if acc.isEmpty then [] else [acc.reverse]
  | c :: rest, acc =>
    if isSpaceC c then
      if acc.isEmpty then splitWsAux rest []
      else acc.reverse :: splitWsAux rest []
    else splitWsAux rest (c :: acc)

/-- Python `s.split()` with no separator argument. -/
def splitWs (s : List Nat) : List (List Nat) := splitWsAux s []

/-- Python `" ".join(words)`. -/
def joinSpace : List (List Nat) → List Nat
  | [] => []
  | [w] => w
  | w :: ws => w ++ 32 :: joinSpace ws

/-! ## The label normalizer (`ValidationAgent._normalize_label`) -/

/-- `_normalize_label`: capitalize each word of the word list unless it
is an all-uppercase acronym of length greater than one. -/
def normWord (w : List Nat) : List Nat :=
  if pyIsUpper w && decide (1 < w.length) then w else pyCapitalize w

/-- `ValidationAgent._normalize_label` (src/agents/validation_agent.py):
sanitize, strip, collapse whitespace via `" ".join(label.split())`, then
re-split and capitalize each word with acronym preservation. -/
def normalizeLabel (label : List Nat) : List Nat :=
  let s1 := sanitizeString label
  let s2 := pyStrip s1
  let s3 := joinSpace (splitWs s2)
  joinSpace ((splitWs s3).map normWord)

/-! ## Extracted entities and the validation agent
(`ValidationAgent._normalize_entities`, src/agents/validation_agent.py) -/

/-- `ExtractedEntity` (src/graph/models.py): type tag, label, optional
description and a string-keyed property map (values modelled as strings,
the case `sanitize_dict` rewrites). -/
structure EEnt where
  etype : List Nat
  label : List Nat
  description : Option (List Nat)
  properties : List (List Nat × List Nat)
  deriving DecidableEq

/-- Python truthiness of an optional string (`None` and the empty string
are falsy). -/
def optTruthy : Option (List Nat) → Bool
  | none => false
  | some s => !s.isEmpty

/-- `dict.get` / first-match lookup in an association list with
string keys. -/
def lookupStr {α : Type} (k : List Nat) : List (List Nat × α) → Option α
  | [] => none
  | (q, v) :: rest => if q = k then some v else lookupStr k rest

/-- Python `existing.update(incoming)` on dictionaries: keys already
present keep their position but take the incoming value; genuinely new
keys are appended in incoming order. -/
def dictUpdate (old new : List (List Nat × List Nat)) : List (List Nat × List Nat) :=
  (old.map (fun p =>
    match lookupStr p.1 new with
    | some v => (p.1, v)
    | none => p)) ++ new.filter (fun q => (lookupStr q.1 old).isNone)

/-- `sanitize_string(entity.description) if entity.description else None`. -/
def sanitizeDesc : Option (List Nat) → Option (List Nat)
  | none => none
  | some d => if d.isEmpty then none else some (sanitizeString d)

/-- `sanitize_dict(entity.properties.copy())`: values sanitized, keys kept. -/
def sanitizeProps (ps : List (List Nat × List Nat)) : List (List Nat × List Nat) :=
  ps.map (fun p => (p.1, sanitizeString p.2))

/-- Merge of a later group member into the canonical entity: the
description is taken only when the canonical one is falsy, and the raw
incoming properties overwrite on key collision. -/
def mergeInto (e c : EEnt) : EEnt :=
  { c with
    description :=
      if optTruthy e.description && !optTruthy c.description then e.description
      else c.description,
    properties := dictUpdate c.properties e.properties }

/-- Replace the canonical entity stored under key `k`. -/
def setKey (k : List Nat) (c : EEnt) (acc : List (List Nat × EEnt)) :
    List (List Nat × EEnt) :=
  acc.map (fun p => if p.1 = k then (k, c) else p)

/-- One iteration of the `_normalize_entities` loop.  The accumulator is
the `normalized` output list in order, each entry paired with its
`seen_labels` key. -/
def normStep (etype : List Nat) (acc : List (List Nat × EEnt)) (e : EEnt) :
    List (List Nat × EEnt) :=
  if pyStrip e.label = [] then acc
  else
    match lookupStr (lowerStr (normalizeLabel e.label)) acc with
    | some c => setKey (lowerStr (normalizeLabel e.label)) (mergeInto e c) acc
    | none =>
      acc ++ [(lowerStr (normalizeLabel e.label),
               { etype := etype, label := normalizeLabel e.label,
                 description := sanitizeDesc e.description,
                 properties := sanitizeProps e.properties })]

/-- `ValidationAgent._normalize_entities`. -/
def normalizeEntities (etype : List Nat) (es : List EEnt) : List EEnt :=
  (es.foldl (normStep etype) []).map Prod.snd

/-! ## Relationship validation (`ValidationAgent._validate_relationships`) -/

/-- A raw extracted relationship before validation.  An absent or empty
string field is modelled as `[]` (Python checks
`hasattr` plus truthiness); an absent `confidence` attribute is `none`. -/
structure RawRel where
  fromLabel : List Nat
  toLabel : List Nat
  rtype : List Nat
  confidence : Option Rat
  deriving DecidableEq

/-- A validated relationship: confidence is always present. -/
structure VRel where
  fromLabel : List Nat
  toLabel : List Nat
  rtype : List Nat
  confidence : Rat
  deriving DecidableEq

/-- One relationship through `_validate_relationships`: dropped when a
required field is missing/empty, missing confidence defaults to `0.5`,
present confidence is clamped to `[0, 1]` by `max(0.0, min(1.0, ...))`. -/
def validateRel (r : RawRel) : Option VRel :=
  if r.fromLabel = [] then none
  else if r.toLabel = [] then none
  else if r.rtype = [] then none
  else some
    { fromLabel := r.fromLabel, toLabel := r.toLabel, rtype := r.rtype,
      confidence :=
        match r.confidence with
        | none => 1/2
        | some c => max 0 (min 1 c) }

/-- `ValidationAgent._validate_relationships`. -/
def validateRelationships (rels : List RawRel) : List VRel :=
  rels.filterMap validateRel

/-! ## `ValidationAgent.validate_and_normalize` and ingestion entity lists -/

/-- Entity type tags (codepoints of the Python string literals). -/
def conceptT : List Nat := [99, 111, 110, 99, 101, 112, 116]

def methodT : List Nat := [109, 101, 116, 104, 111, 100]

def datasetT : List Nat := [100, 97, 116, 97, 115, 101, 116]

def metricT : List Nat := [109, 101, 116, 114, 105, 99]

def authorT : List Nat := [97, 117, 116, 104, 111, 114]

/-- `EntityExtractionResult` (src/graph/models.py), input side. -/
structure ExtractionResult where
  concepts : List EEnt
  methods : List EEnt
  datasets : List EEnt
  metrics : List EEnt
  authors : List EEnt
  tasks : List EEnt
  relationships : List RawRel
  deriving DecidableEq

/-- `EntityExtractionResult` after validation. -/
structure ValidatedResult where
  concepts : List EEnt
  methods : List EEnt
  datasets : List EEnt
  metrics : List EEnt
  authors : List EEnt
  tasks : List EEnt
  relationships : List VRel
  deriving DecidableEq

/-- `ValidationAgent.validate_and_normalize`: the returned
`EntityExtractionResult(...)` is constructed without a `tasks` argument,
so the pydantic `default_factory=list` makes the output `tasks` empty. -/
def validateAndNormalize (r : ExtractionResult) : ValidatedResult :=
  { concepts := normalizeEntities conceptT r.concepts,
    methods := normalizeEntities methodT r.methods,
    datasets := normalizeEntities datasetT r.datasets,
    metrics := normalizeEntities metricT r.metrics,
    authors := normalizeEntities authorT r.authors,
    tasks := [],
    relationships := validateRelationships r.relationships }

/-- `all_entities` as concatenated in `IngestionService.ingest_paper`
step 6. -/
def allEntities (v : ValidatedResult) : List EEnt :=
  v.concepts ++ v.methods ++ v.datasets ++ v.metrics ++ v.authors ++ v.tasks

/-! ## Edges and the cross-paper relationship direction
(`RelationshipLinkingAgent._infer_with_llm`, src/agents/relationship_linking_agent.py) -/

/-- An edge as persisted (node ids modelled as naturals; Python UUIDs
are opaque and always truthy). -/
structure EdgeM where
  fromId : Nat
  toId : Nat
  etype : List Nat
  confidence : Rat
  deriving DecidableEq

/-- Relationship type string IMPROVES_ON. -/
def tIMPROVES : List Nat := [73, 77, 80, 82, 79, 86, 69, 83, 95, 79, 78]

/-- Relationship type string EXTENDS. -/
def tEXTENDS : List Nat := [69, 88, 84, 69, 78, 68, 83]

/-- Relationship type string REFINES_CONCEPT. -/
def tREFINES : List Nat := [82, 69, 70, 73, 78, 69, 83, 95, 67, 79, 78, 67, 69, 80, 84]

/-- Relationship type string COMPARES_TO. -/
def tCOMPARES : List Nat := [67, 79, 77, 80, 65, 82, 69, 83, 95, 84, 79]

/-- Relationship type string SIMILAR_TO. -/
def tSIMILAR : List Nat := [83, 73, 77, 73, 76, 65, 82, 95, 84, 79]

/-- The list literal the agent tests membership in:
IMPROVES_ON, EXTENDS, REFINES_CONCEPT. -/
def invertedTypes : List (List Nat) := [tIMPROVES, tEXTENDS, tREFINES]

/-- One oracle result dictionary: `relationship_type` and `confidence`
may be absent (`dict.get`). -/
structure OracleRel where
  rtype : Option (List Nat)
  confidence : Option Rat
  deriving DecidableEq

/-- `rel_data.get("relationship_type") in ["IMPROVES_ON", "EXTENDS",
"REFINES_CONCEPT"]` (a missing key yields `None`, which is not in the
list). -/
def isInvertedRT : Option (List Nat) → Bool
  | some t => decide (t ∈ invertedTypes)
  | none => false

/-- The `Edge(...)` construction in `_infer_with_llm` for one oracle
result, given the ordered papers `(p1, p2)` passed to the oracle. -/
def mkCrossEdge (p1 p2 : Nat) (r : OracleRel) : EdgeM :=
  { fromId := if isInvertedRT r.rtype then p2 else p1,
    toId := if isInvertedRT r.rtype then p1 else p2,
    etype := r.rtype.getD tSIMILAR,
    confidence := r.confidence.getD (1/2) }

/-- `_infer_with_llm`: every parsed oracle result becomes one edge. -/
def inferWithLLM (p1 p2 : Nat) (results : List OracleRel) : List EdgeM :=
  results.map (mkCrossEdge p1 p2)

/-! ## Intra-paper relationship materialization
(`IngestionService.ingest_paper`, step 7) -/

/-- Is a validated relationship resolvable against the batch
`label -> node id` map?  (Node ids are UUIDs in Python, which are always
truthy, so `if from_id and to_id` tests exactly that both lookups
succeeded.) -/
def resolvable (nodes : List (List Nat × Nat)) (r : VRel) : Bool :=
  (lookupStr r.fromLabel nodes).isSome && (lookupStr r.toLabel nodes).isSome

/-- Step 7 of `ingest_paper`: each relationship whose two labels resolve
in `entity_nodes` becomes an edge; the others are silently skipped. -/
def materializeRels (nodes : List (List Nat × Nat)) (rels : List VRel) : List EdgeM :=
  rels.filterMap (fun r =>
    match lookupStr r.fromLabel nodes, lookupStr r.toLabel nodes with
    | some f, some t =>
      some { fromId := f, toId := t, etype := r.rtype, confidence := r.confidence }
    | _, _ => none)

/-! ## The persistent store and find-or-create
(`GraphRepository.find_node_by_label`, `IngestionService.ingest_paper` step 6) -/

/-- A persisted node row. -/
structure NodeM where
  nid : Nat
  ntype : List Nat
  label : List Nat
  deriving DecidableEq

/-- The nodes table plus a fresh-id counter (Python draws random UUIDs;
distinctness is what matters). -/
structure Store where
  nodes : List NodeM
  nextId : Nat
  deriving DecidableEq

/-- `find_node_by_label(label, node_type)`:
`SELECT * FROM nodes WHERE label = %s AND node_type = %s LIMIT 1` —
an exact equality match on the label. -/
def findNodeByLabel (st : Store) (label ntype : List Nat) : Option NodeM :=
  st.nodes.find? (fun n => decide (n.label = label) && decide (n.ntype = ntype))

/-- The find-or-create step of `ingest_paper` step 6 for one validated
entity: reuse the id of an existing `(label, type)` row, otherwise
insert a fresh node. -/
def findOrCreate (st : Store) (ntype label : List Nat) : Nat × Store :=
  match findNodeByLabel st label ntype with
  | some n => (n.nid, st)
  | none =>
    (st.nextId,
     { nodes := st.nodes ++ [{ nid := st.nextId, ntype := ntype, label := label }],
       nextId := st.nextId + 1 })

/-- Resolve a list of validated entities against the store in order,
returning the node id chosen for each. -/
def resolveEntities (st : Store) (es : List EEnt) : List Nat × Store :=
  es.foldl
    (fun acc e =>
      let r := findOrCreate acc.2 e.etype e.label
      (acc.1 ++ [r.1], r.2))
    ([], st)

/-- A raw extracted entity carrying only a label. -/
def mkRawEnt (etype label : List Nat) : EEnt :=
  { etype := etype, label := label, description := none, properties := [] }

/-- Ingest one document's entities of one type: validation-agent
normalization followed by find-or-create against the store. -/
def ingestDoc (st : Store) (etype : List Nat) (labels : List (List Nat)) :
    List Nat × Store :=
  resolveEntities st (normalizeEntities etype (labels.map (mkRawEnt etype)))

/-! ## Candidate pair generation (`GraphService`, src/services/graph_service.py)

Both strategies keep a `seen_pairs` set of canonically ordered id pairs
and a growing list of pairs actually passed to the relationship oracle
(`_compare_papers`).  Edge persistence after the oracle call does not
affect which pairs are evaluated, so the embedded state records the
oracle calls. -/

/-- The mutable state threaded through the nested loops. -/
structure PairState where
  seen : List (Nat × Nat)
  callsOut : List (Nat × Nat)
  deriving DecidableEq

/-- `tuple(sorted([str(a), str(b)]))`: the canonical key of an unordered
pair. -/
def pairKey (a b : Nat) : Nat × Nat :=
  if a ≤ b then (a, b) else (b, a)

/-- The body shared by both strategies for one candidate `dst` of a
fixed `src`: skip self-pairs, deduplicate via `seen_pairs` (the key is
recorded before the pruning test, exactly as in the source), then call
the oracle if the strategy-specific test passes. -/
def candStep (test : Nat → Nat → Bool) (src : Nat) (st : PairState) (dst : Nat) :
    PairState :=
  if dst = src then st
  else if pairKey src dst ∈ st.seen then st
  else if test src dst then
    { seen := pairKey src dst :: st.seen, callsOut := st.callsOut ++ [(src, dst)] }
  else { seen := pairKey src dst :: st.seen, callsOut := st.callsOut }

/-- The graph contents used by strategy A
(`link_cross_paper_relationships_pruned_2`): the papers in iteration
order and the dataset/method/concept node ids connected to each paper. -/
structure Corpus where
  papers : List Nat
  pd : Nat → List Nat
  pm : Nat → List Nat
  pc : Nat → List Nat

/-- `all_connected_nodes`: the union of a paper's dataset, method and
concept neighbors. -/
def conn (g : Corpus) (p : Nat) : List Nat :=
  g.pd p ++ g.pm p ++ g.pc p

/-- Membership of `q` in the union over `n in C(src)` of
`node_to_papers[n]` — the inverted-index candidate generation. -/
def sharesIndexNode (g : Corpus) (src q : Nat) : Bool :=
  (conn g src).any (fun n => decide (n ∈ conn g q))

/-- The recomputed per-category shared-node check
(`shared_datasets or shared_methods or shared_concepts`). -/
def sharesCat (g : Corpus) (p q : Nat) : Bool :=
  (g.pd p).any (fun n => decide (n ∈ g.pd q)) ||
  (g.pm p).any (fun n => decide (n ∈ g.pm q)) ||
  (g.pc p).any (fun n => decide (n ∈ g.pc q))

/-- Strategy A, one source paper: skip papers with no connected nodes,
then walk the candidate set (papers sharing an indexed node, self
removed). -/
def strat2Src (g : Corpus) (st : PairState) (src : Nat) : PairState :=
  if conn g src = [] then st
  else
    let cands :=
      (g.papers.filter (fun q => sharesIndexNode g src q)).filter (fun q => decide (q ≠ src))
    cands.foldl (candStep (sharesCat g) src) st

/-- `GraphService.link_cross_paper_relationships_pruned_2`: the ordered
pairs passed to the relationship oracle. -/
def strat2Calls (g : Corpus) : List (Nat × Nat) :=
  if g.papers.length < 2 then []
  else (g.papers.foldl (strat2Src g) { seen := [], callsOut := [] }).callsOut

/-- The graph contents used by strategy B
(`link_cross_paper_relationships_pruned`): papers, their dataset
neighbors, and the top-K similar papers the vector store returns for
each paper. -/
structure SimCorpus where
  papers : List Nat
  pd : Nat → List Nat
  nbrs : Nat → List Nat

/-- `paper_datasets.get(q, set())`: the dataset map is only populated
for known papers. -/
def pdL (g : SimCorpus) (q : Nat) : List Nat :=
  if q ∈ g.papers then g.pd q else []

/-- The post-dedup checks of strategy B for a candidate `dst`: `dst` has
a dataset, shares one with `src`, and is a known paper node. -/
def strat1Test (g : SimCorpus) (src dst : Nat) : Bool :=
  !(pdL g dst).isEmpty &&
  (g.pd src).any (fun n => decide (n ∈ pdL g dst)) &&
  decide (dst ∈ g.papers)

/-- Strategy B, one source paper: skip papers with no dataset neighbor,
then walk the top-K similar papers. -/
def strat1Src (g : SimCorpus) (st : PairState) (src : Nat) : PairState :=
  if (g.pd src).isEmpty then st
  else (g.nbrs src).foldl (candStep (strat1Test g) src) st

/-- `GraphService.link_cross_paper_relationships_pruned`: the ordered
pairs passed to the relationship oracle. -/
def strat1Calls (g : SimCorpus) : List (Nat × Nat) :=
  if g.papers.length < 2 then []
  else (g.papers.foldl (strat1Src g) { seen := [], callsOut := [] }).callsOut

/-! ## Concrete inputs used by the testable properties
(codepoint lists; the ASCII text is given in each doc comment) -/

/-- The string PSNR. -/
def strPSNR : List Nat := [80, 83, 78, 82]

/-- The string psnr. -/
def strpsnr : List Nat := [112, 115, 110, 114]

/-- The string Psnr (what the normalizer makes of psnr). -/
def strPsnr : List Nat := [80, 115, 110, 114]

/-- The string consisting of two spaces, then: 3d gaussian splatting,
then two spaces. -/
def strRaw3d : List Nat :=
  [32, 32, 51, 100, 32, 103, 97, 117, 115, 115, 105, 97, 110, 32,
   115, 112, 108, 97, 116, 116, 105, 110, 103, 32, 32]

/-- The string: 3d Gaussian Splatting. -/
def strNorm3d : List Nat :=
  [51, 100, 32, 71, 97, 117, 115, 115, 105, 97, 110, 32,
   83, 112, 108, 97, 116, 116, 105, 110, 103]

/-- The string: 3D Gaussian Splatting. -/
def str3DGS : List Nat :=
  [51, 68, 32, 71, 97, 117, 115, 115, 105, 97, 110, 32,
   83, 112, 108, 97, 116, 116, 105, 110, 103]

/-- The string: 3d gaussian splatting (no padding). -/
def str3dgs : List Nat :=
  [51, 100, 32, 103, 97, 117, 115, 115, 105, 97, 110, 32,
   115, 112, 108, 97, 116, 116, 105, 110, 103]

/-- The string: Neural Radiance Fields. -/
def strNRF : List Nat :=
  [78, 101, 117, 114, 97, 108, 32, 82, 97, 100, 105, 97, 110, 99, 101, 32,
   70, 105, 101, 108, 100, 115]

/-- The string: gaussian. -/
def strgaussian : List Nat := [103, 97, 117, 115, 115, 105, 97, 110]

/-- The string: Gaussian. -/
def strGaussian : List Nat := [71, 97, 117, 115, 115, 105, 97, 110]

/-- The canonical key the spec's uniqueness invariant speaks about:
the lowercased, whitespace-normalized label. -/
def claimKey (label : List Nat) : List Nat :=
  lowerStr (joinSpace (splitWs label))

/-- The empty store. -/
def store0 : Store := { nodes := [], nextId := 0 }

/-- The 5-paper corpus of the pair-dedup testable property: papers
A=0, B=1, C=2, D=3, E=4; A and B share dataset node 10, B and C share
method node 20, no other connections. -/
def exCorpus : Corpus :=
  { papers := [0, 1, 2, 3, 4],
    pd := fun p => if p = 0 ∨ p = 1 then [10] else [],
    pm := fun p => if p = 1 ∨ p = 2 then [20] else [],
    pc := fun _ => [] }

/-- A 3-paper corpus for strategy B: papers 1 and 2 share dataset 7,
paper 3 has none; the vector store reports 2 and 3 similar to 1. -/
def exSim : SimCorpus :=
  { papers := [1, 2, 3],
    pd := fun p => if p = 1 ∨ p = 2 then [7] else [],
    nbrs := fun p => if p = 1 then [2, 3] else if p = 2 then [1] else [] }

/-! ## Lemmas about splitting and joining -/

theorem splitWsAux_append_word (w : List Nat) (hw : ∀ c ∈ w, isSpaceC c = false) :
    ∀ (rest acc : List Nat), splitWsAux (w ++ rest) acc = splitWsAux rest (w.reverse ++ acc) := by
  induction w with
  | nil => intro rest acc; simp
  | cons c w ih =>
    intro rest acc
    have hc : isSpaceC c = false := hw c (List.mem_cons_self c w)
    have hw' : ∀ d ∈ w, isSpaceC d = false := fun d hd => hw d (List.mem_cons_of_mem c hd)
    simp only [List.cons_append, splitWsAux, hc, Bool.false_eq_true, if_false, List.append_eq]
    rw [ih hw' rest (c :: acc)]
    simp [List.append_assoc]

theorem splitWsAux_good (s : List Nat) :
    ∀ acc, (∀ c ∈ acc, isSpaceC c = false) →
      ∀ w ∈ splitWsAux s acc, w ≠ [] ∧ ∀ c ∈ w, isSpaceC c = false := by
  induction s with
  | nil =>
    intro acc hacc w hw
    simp only [splitWsAux] at hw
    by_cases h : acc.isEmpty
    · simp [h] at hw
    · simp only [h, Bool.false_eq_true, if_false, List.mem_singleton] at hw
      subst hw
      constructor
      · simp only [ne_eq, List.reverse_eq_nil_iff]
        intro h2
        rw [h2] at h
        exact h rfl
      · intro c hc
        exact hacc c (List.mem_reverse.mp hc)
  | cons c rest ih =>
    intro acc hacc w hw
    simp only [splitWsAux] at hw
    by_cases hc : isSpaceC c
    · simp only [hc, if_true] at hw
      by_cases hne : acc.isEmpty
      · simp only [hne, if_true] at hw
        exact ih [] (by simp) w hw
      · simp only [hne, Bool.false_eq_true, if_false, List.mem_cons] at hw
        rcases hw with hw | hw
        · subst hw
          constructor
          · simp only [ne_eq, List.reverse_eq_nil_iff]
            intro h2
            rw [h2] at hne
            simp at hne
          · intro d hd
            exact hacc d (List.mem_reverse.mp hd)
        · exact ih [] (by simp) w hw
    · simp only [hc, Bool.false_eq_true, if_false] at hw
      refine ih (c :: acc) ?_ w hw
      intro d hd
      rcases List.mem_cons.mp hd with h | h
      · subst h; simpa using hc
      · exact hacc d h

theorem splitWs_good (s : List Nat) :
    ∀ w ∈ splitWs s, w ≠ [] ∧ ∀ c ∈ w, isSpaceC c = false :=
  splitWsAux_good s [] (by simp)

theorem splitWsAux_mem_subset (s : List Nat) :
    ∀ acc w c, w ∈ splitWsAux s acc → c ∈ w → c ∈ s ∨ c ∈ acc := by
  induction s with
  | nil =>
    intro acc w c hw hc
    simp only [splitWsAux] at hw
    by_cases h : acc.isEmpty
    · simp [h] at hw
    · simp only [h, Bool.false_eq_true, if_false, List.mem_singleton] at hw
      subst hw
      exact Or.inr (List.mem_reverse.mp hc)
  | cons a rest ih =>
    intro acc w c hw hc
    simp only [splitWsAux] at hw
    by_cases ha : isSpaceC a
    · simp only [ha, if_true] at hw
      by_cases hne : acc.isEmpty
      · simp only [hne, if_true] at hw
        rcases ih [] w c hw hc with h | h
        · exact Or.inl (List.mem_cons_of_mem a h)
        · simp at h
      · simp only [hne, Bool.false_eq_true, if_false, List.mem_cons] at hw
        rcases hw with hw | hw
        · subst hw
          exact Or.inr (List.mem_reverse.mp hc)
        · rcases ih [] w c hw hc with h | h
          · exact Or.inl (List.mem_cons_of_mem a h)
          · simp at h
    · simp only [ha, Bool.false_eq_true, if_false] at hw
      rcases ih (a :: acc) w c hw hc with h | h
      · exact Or.inl (List.mem_cons_of_mem a h)
      · rcases List.mem_cons.mp h with h | h
        · exact Or.inl (h ▸ List.mem_cons_self a rest)
        · exact Or.inr h

theorem splitWs_mem {s w : List Nat} {c : Nat} (hw : w ∈ splitWs s) (hc : c ∈ w) : c ∈ s := by
  rcases splitWsAux_mem_subset s [] w c hw hc with h | h
  · exact h
  · simp at h

theorem joinSpace_cons (w : List Nat) (ws : List (List Nat)) (h : ws ≠ []) :
    joinSpace (w :: ws) = w ++ 32 :: joinSpace ws := by
  cases ws with
  | nil => exact absurd rfl h
  | cons w2 ws2 => rfl

theorem splitWs_joinSpace (ws : List (List Nat))
    (h : ∀ w ∈ ws, w ≠ [] ∧ ∀ c ∈ w, isSpaceC c = false) :
    splitWs (joinSpace ws) = ws := by
  induction ws with
  | nil => rfl
  | cons w ws ih =>
    have hw := h w (List.mem_cons_self w ws)
    have hrest : ∀ v ∈ ws, v ≠ [] ∧ ∀ c ∈ v, isSpaceC c = false :=
      fun v hv => h v (List.mem_cons_of_mem w hv)
    cases ws with
    | nil =>
      show splitWs w = [w]
      unfold splitWs
      have hw0 : w ++ ([] : List Nat) = w := List.append_nil w
      rw [← hw0, splitWsAux_append_word w hw.2]
      simp only [splitWsAux, List.append_nil]
      have hne : w.reverse.isEmpty = false :=
        List.isEmpty_eq_false.mpr (by simpa [List.reverse_eq_nil_iff] using hw.1)
      simp [hne]
    | cons w2 ws2 =>
      rw [joinSpace_cons w (w2 :: ws2) (by simp)]
      show splitWsAux (w ++ 32 :: joinSpace (w2 :: ws2)) [] = w :: w2 :: ws2
      rw [splitWsAux_append_word w hw.2]
      simp only [List.append_nil, splitWsAux]
      have h32 : isSpaceC 32 = true := by decide
      have hne : w.reverse.isEmpty = false :=
        List.isEmpty_eq_false.mpr (by simpa [List.reverse_eq_nil_iff] using hw.1)
      rw [if_pos h32, if_neg (by simp [hne])]
      rw [List.reverse_reverse]
      exact congrArg (w :: ·) (ih hrest)

theorem dropWhile_eq_self_of_head {p : Nat → Bool} {l : List Nat}
    (h : ∀ c, l.head? = some c → p c = false) : l.dropWhile p = l := by
  cases l with
  | nil => rfl
  | cons c t =>
    have := h c rfl
    simp [List.dropWhile_cons, this]

theorem dropWhile_joinSpace_good (ws : List (List Nat))
    (h : ∀ w ∈ ws, w ≠ [] ∧ ∀ c ∈ w, isSpaceC c = false) :
    (joinSpace ws).dropWhile isSpaceC = joinSpace ws := by
  apply dropWhile_eq_self_of_head
  intro c hc
  cases ws with
  | nil => simp [joinSpace] at hc
  | cons w ws2 =>
    have hw := h w (List.mem_cons_self w ws2)
    cases w with
    | nil => exact absurd rfl hw.1
    | cons a t =>
      have hhead : (joinSpace ((a :: t) :: ws2)).head? = some a := by
        cases ws2 with
        | nil => rfl
        | cons w2 ws3 => rfl
      rw [hhead] at hc
      rw [← Option.some.inj hc]
      exact hw.2 a (List.mem_cons_self a t)

theorem joinSpace_snoc (ws : List (List Nat)) (v : List Nat) (h : ws ≠ []) :
    joinSpace (ws ++ [v]) = joinSpace ws ++ 32 :: v := by
  induction ws with
  | nil => exact absurd rfl h
  | cons w ws ih =>
    cases ws with
    | nil => rfl
    | cons w2 ws2 =>
      have hne : (w2 :: ws2) ++ [v] ≠ [] := by simp
      rw [List.cons_append, joinSpace_cons w ((w2 :: ws2) ++ [v]) hne,
        ih (by simp), joinSpace_cons w (w2 :: ws2) (by simp)]
      simp

theorem joinSpace_reverse (ws : List (List Nat)) :
    (joinSpace ws).reverse = joinSpace ((ws.map List.reverse).reverse) := by
  induction ws with
  | nil => rfl
  | cons w ws ih =>
    cases ws with
    | nil => rfl
    | cons w2 ws2 =>
      calc (joinSpace (w :: w2 :: ws2)).reverse
          = (w ++ 32 :: joinSpace (w2 :: ws2)).reverse := by
            rw [joinSpace_cons w (w2 :: ws2) (by simp)]
        _ = (joinSpace (w2 :: ws2)).reverse ++ 32 :: w.reverse := by
            simp
        _ = joinSpace ((List.map List.reverse (w2 :: ws2)).reverse) ++ 32 :: w.reverse := by
            rw [ih]
        _ = joinSpace ((List.map List.reverse (w2 :: ws2)).reverse ++ [w.reverse]) :=
            (joinSpace_snoc ((List.map List.reverse (w2 :: ws2)).reverse) w.reverse (by simp)).symm
        _ = joinSpace ((List.map List.reverse (w :: w2 :: ws2)).reverse) := by
            simp

theorem pyStrip_joinSpace_good (ws : List (List Nat))
    (h : ∀ w ∈ ws, w ≠ [] ∧ ∀ c ∈ w, isSpaceC c = false) :
    pyStrip (joinSpace ws) = joinSpace ws := by
  unfold pyStrip
  rw [dropWhile_joinSpace_good ws h]
  have hrev : ∀ w ∈ (ws.map List.reverse).reverse, w ≠ [] ∧ ∀ c ∈ w, isSpaceC c = false := by
    intro w hw
    rw [List.mem_reverse, List.mem_map] at hw
    obtain ⟨v, hv, rfl⟩ := hw
    refine ⟨by simpa using (h v hv).1, ?_⟩
    intro c hc
    exact (h v hv).2 c (List.mem_reverse.mp hc)
  rw [joinSpace_reverse, dropWhile_joinSpace_good _ hrev, ← joinSpace_reverse,
    List.reverse_reverse]

/-! ## Character-level facts -/

theorem isLowerC_eq (c : Nat) : isLowerC c = decide (97 ≤ c ∧ c ≤ 122) := by
  simp [isLowerC]

theorem isUpperC_eq (c : Nat) : isUpperC c = decide (65 ≤ c ∧ c ≤ 90) := by
  simp [isUpperC]

theorem toUpperC_idem (c : Nat) : toUpperC (toUpperC c) = toUpperC c := by
  by_cases h : isLowerC c = true
  · have h' : 97 ≤ c ∧ c ≤ 122 := by rw [isLowerC_eq] at h; exact of_decide_eq_true h
    have h1 : toUpperC c = c - 32 := by unfold toUpperC; rw [if_pos h]
    have h2 : isLowerC (c - 32) = false := by
      rw [isLowerC_eq]; exact decide_eq_false (by omega)
    rw [h1]
    unfold toUpperC
    rw [h2]
    simp
  · have h1 : toUpperC c = c := by
      unfold toUpperC
      rw [if_neg (by simpa using h)]
    rw [h1, h1]

theorem toLowerC_idem (c : Nat) : toLowerC (toLowerC c) = toLowerC c := by
  by_cases h : isUpperC c = true
  · have h' : 65 ≤ c ∧ c ≤ 90 := by rw [isUpperC_eq] at h; exact of_decide_eq_true h
    have h1 : toLowerC c = c + 32 := by unfold toLowerC; rw [if_pos h]
    have h2 : isUpperC (c + 32) = false := by
      rw [isUpperC_eq]; exact decide_eq_false (by omega)
    rw [h1]
    unfold toLowerC
    rw [h2]
    simp
  · have h1 : toLowerC c = c := by
      unfold toLowerC
      rw [if_neg (by simpa using h)]
    rw [h1, h1]

theorem isSpaceC_toUpperC (c : Nat) : isSpaceC (toUpperC c) = isSpaceC c := by
  unfold toUpperC
  by_cases h : isLowerC c = true
  · rw [if_pos h]
    have h' : 97 ≤ c ∧ c ≤ 122 := by rw [isLowerC_eq] at h; exact of_decide_eq_true h
    rw [Bool.eq_iff_iff]
    unfold isSpaceC
    simp only [Bool.or_eq_true, beq_iff_eq]
    omega
  · rw [if_neg (by simpa using h)]

theorem isSpaceC_toLowerC (c : Nat) : isSpaceC (toLowerC c) = isSpaceC c := by
  unfold toLowerC
  by_cases h : isUpperC c = true
  · rw [if_pos h]
    have h' : 65 ≤ c ∧ c ≤ 90 := by rw [isUpperC_eq] at h; exact of_decide_eq_true h
    rw [Bool.eq_iff_iff]
    unfold isSpaceC
    simp only [Bool.or_eq_true, beq_iff_eq]
    omega
  · rw [if_neg (by simpa using h)]

theorem keepC_toUpperC (c : Nat) : keepC (toUpperC c) = keepC c := by
  unfold toUpperC
  by_cases h : isLowerC c = true
  · rw [if_pos h]
    have h' : 97 ≤ c ∧ c ≤ 122 := by rw [isLowerC_eq] at h; exact of_decide_eq_true h
    rw [Bool.eq_iff_iff]
    unfold keepC
    simp only [Bool.or_eq_true, beq_iff_eq, decide_eq_true_eq]
    omega
  · rw [if_neg (by simpa using h)]

theorem keepC_toLowerC (c : Nat) : keepC (toLowerC c) = keepC c := by
  unfold toLowerC
  by_cases h : isUpperC c = true
  · rw [if_pos h]
    have h' : 65 ≤ c ∧ c ≤ 90 := by rw [isUpperC_eq] at h; exact of_decide_eq_true h
    rw [Bool.eq_iff_iff]
    unfold keepC
    simp only [Bool.or_eq_true, beq_iff_eq, decide_eq_true_eq]
    omega
  · rw [if_neg (by simpa using h)]

/-! ## Idempotence of word normalization -/

theorem pyCapitalize_idem (w : List Nat) : pyCapitalize (pyCapitalize w) = pyCapitalize w := by
  cases w with
  | nil => rfl
  | cons c t =>
    simp only [pyCapitalize, List.map_map]
    rw [toUpperC_idem]
    refine congrArg (toUpperC c :: ·) ?_
    apply List.map_congr_left
    intro a _
    exact toLowerC_idem a

theorem normWord_idem (w : List Nat) : normWord (normWord w) = normWord w := by
  by_cases h : (pyIsUpper w && decide (1 < w.length)) = true
  · have h1 : normWord w = w := by unfold normWord; rw [if_pos h]
    rw [h1]
    exact h1
  · have h1 : normWord w = pyCapitalize w := by
      unfold normWord; rw [if_neg (by simpa using h)]
    rw [h1]
    by_cases h2 : (pyIsUpper (pyCapitalize w) && decide (1 < (pyCapitalize w).length)) = true
    · unfold normWord; rw [if_pos h2]
    · have h3 : normWord (pyCapitalize w) = pyCapitalize (pyCapitalize w) := by
        unfold normWord; rw [if_neg (by simpa using h2)]
      rw [h3]
      exact pyCapitalize_idem w

theorem pyCapitalize_ne_nil {w : List Nat} (h : w ≠ []) : pyCapitalize w ≠ [] := by
  cases w with
  | nil => exact absurd rfl h
  | cons c t => simp [pyCapitalize]

theorem normWord_ne_nil {w : List Nat} (h : w ≠ []) : normWord w ≠ [] := by
  unfold normWord
  by_cases hb : (pyIsUpper w && decide (1 < w.length)) = true
  · rw [if_pos hb]; exact h
  · rw [if_neg (by simpa using hb)]; exact pyCapitalize_ne_nil h

theorem mem_pyCapitalize {w : List Nat} {c : Nat} (hc : c ∈ pyCapitalize w) :
    ∃ d ∈ w, c = toUpperC d ∨ c = toLowerC d := by
  cases w with
  | nil => simp [pyCapitalize] at hc
  | cons a t =>
    simp only [pyCapitalize, List.mem_cons, List.mem_map] at hc
    rcases hc with hc | ⟨d, hd, rfl⟩
    · exact ⟨a, List.mem_cons_self a t, Or.inl hc⟩
    · exact ⟨d, List.mem_cons_of_mem a hd, Or.inr rfl⟩

theorem mem_normWord {w : List Nat} {c : Nat} (hc : c ∈ normWord w) :
    ∃ d ∈ w, c = toUpperC d ∨ c = toLowerC d ∨ c = d := by
  unfold normWord at hc
  by_cases hb : (pyIsUpper w && decide (1 < w.length)) = true
  · rw [if_pos hb] at hc
    exact ⟨c, hc, Or.inr (Or.inr rfl)⟩
  · rw [if_neg (by simpa using hb)] at hc
    obtain ⟨d, hd, hcd⟩ := mem_pyCapitalize hc
    exact ⟨d, hd, hcd.imp id Or.inl⟩

/-! ## Structure and idempotence of the label normalizer -/

theorem sanitizeString_eq_self {l : List Nat} (h : ∀ c ∈ l, keepC c = true) :
    sanitizeString l = l := by
  unfold sanitizeString
  exact List.filter_eq_self.mpr h

theorem pyStrip_mem {l : List Nat} {c : Nat} (h : c ∈ pyStrip l) : c ∈ l := by
  unfold pyStrip at h
  rw [List.mem_reverse] at h
  have h2 : c ∈ (l.dropWhile isSpaceC).reverse := (List.dropWhile_sublist _).subset h
  rw [List.mem_reverse] at h2
  exact (List.dropWhile_sublist _).subset h2

theorem mem_joinSpace (ws : List (List Nat)) (c : Nat) (hc : c ∈ joinSpace ws) :
    (∃ w ∈ ws, c ∈ w) ∨ c = 32 := by
  induction ws with
  | nil => simp [joinSpace] at hc
  | cons w ws ih =>
    cases ws with
    | nil =>
      simp only [joinSpace] at hc
      exact Or.inl ⟨w, List.mem_singleton.mpr rfl, hc⟩
    | cons w2 ws2 =>
      rw [joinSpace_cons w (w2 :: ws2) (by simp)] at hc
      rcases List.mem_append.mp hc with h | h
      · exact Or.inl ⟨w, List.mem_cons_self w (w2 :: ws2), h⟩
      · rcases List.mem_cons.mp h with h | h
        · exact Or.inr h
        · rcases ih h with ⟨v, hv, hcv⟩ | h
          · exact Or.inl ⟨v, List.mem_cons_of_mem w hv, hcv⟩
          · exact Or.inr h

/-- `_normalize_label` in closed form: the inner
`" ".join(label.split())` round-trips through the second `split()`, so
the function is the word-wise normalization of the sanitized, stripped
input. -/
theorem normalizeLabel_eq (s : List Nat) :
    normalizeLabel s = joinSpace ((splitWs (pyStrip (sanitizeString s))).map normWord) := by
  show joinSpace ((splitWs (joinSpace (splitWs (pyStrip (sanitizeString s))))).map normWord) =
    joinSpace ((splitWs (pyStrip (sanitizeString s))).map normWord)
  rw [splitWs_joinSpace _ (splitWs_good _)]

theorem normWord_good {w : List Nat} (hne : w ≠ []) (hsp : ∀ c ∈ w, isSpaceC c = false) :
    normWord w ≠ [] ∧ ∀ c ∈ normWord w, isSpaceC c = false := by
  refine ⟨normWord_ne_nil hne, ?_⟩
  intro c hc
  obtain ⟨d, hd, hcd⟩ := mem_normWord hc
  rcases hcd with rfl | rfl | rfl
  · rw [isSpaceC_toUpperC]; exact hsp d hd
  · rw [isSpaceC_toLowerC]; exact hsp d hd
  · exact hsp _ hd

/-- The normalizer is idempotent. -/
theorem normalizeLabel_idem (s : List Nat) :
    normalizeLabel (normalizeLabel s) = normalizeLabel s := by
  rw [normalizeLabel_eq s]
  have hgood : ∀ w ∈ splitWs (pyStrip (sanitizeString s)),
      w ≠ [] ∧ ∀ c ∈ w, isSpaceC c = false := splitWs_good _
  have hkeep : ∀ w ∈ splitWs (pyStrip (sanitizeString s)), ∀ c ∈ w, keepC c = true := by
    intro w hw c hc
    have hmem : c ∈ pyStrip (sanitizeString s) := splitWs_mem hw hc
    exact (List.mem_filter.mp (pyStrip_mem hmem)).2
  have hgood' : ∀ w ∈ (splitWs (pyStrip (sanitizeString s))).map normWord,
      w ≠ [] ∧ ∀ c ∈ w, isSpaceC c = false := by
    intro w hw
    rw [List.mem_map] at hw
    obtain ⟨v, hv, rfl⟩ := hw
    exact normWord_good (hgood v hv).1 (hgood v hv).2
  have hkeep' : ∀ c ∈ joinSpace ((splitWs (pyStrip (sanitizeString s))).map normWord),
      keepC c = true := by
    intro c hc
    rcases mem_joinSpace _ c hc with ⟨w, hw, hcw⟩ | rfl
    · rw [List.mem_map] at hw
      obtain ⟨v, hv, rfl⟩ := hw
      obtain ⟨d, hd, hcd⟩ := mem_normWord hcw
      rcases hcd with rfl | rfl | rfl
      · rw [keepC_toUpperC]; exact hkeep v hv d hd
      · rw [keepC_toLowerC]; exact hkeep v hv d hd
      · exact hkeep v hv _ hd
    · decide
  rw [normalizeLabel_eq (joinSpace ((splitWs (pyStrip (sanitizeString s))).map normWord))]
  rw [sanitizeString_eq_self hkeep']
  rw [pyStrip_joinSpace_good _ hgood']
  rw [splitWs_joinSpace _ hgood']
  rw [List.map_map]
  refine congrArg joinSpace ?_
  apply List.map_congr_left
  intro a _
  exact normWord_idem a

/-! ## Helper lemmas about validation and the store -/

theorem validateRel_some_confidence {r : RawRel} {v : VRel} (h : validateRel r = some v) :
    v.confidence =
      match r.confidence with
      | none => (1 : Rat)/2
      | some c => max 0 (min 1 c) := by
  unfold validateRel at h
  split at h
  · exact Option.noConfusion h
  · split at h
    · exact Option.noConfusion h
    · split at h
      · exact Option.noConfusion h
      · cases Option.some.inj h
        rfl

theorem findOrCreate_stable (st : Store) (t n : List Nat) :
    (findOrCreate (findOrCreate st t n).2 t n).1 = (findOrCreate st t n).1 := by
  rcases hf : findNodeByLabel st n t with _ | node
  · have h1 : findOrCreate st t n =
        (st.nextId,
         { nodes := st.nodes ++ [{ nid := st.nextId, ntype := t, label := n }],
           nextId := st.nextId + 1 }) := by
      unfold findOrCreate
      rw [hf]
    have h2 : findNodeByLabel
        { nodes := st.nodes ++ [{ nid := st.nextId, ntype := t, label := n }],
          nextId := st.nextId + 1 } n t =
        some { nid := st.nextId, ntype := t, label := n } := by
      unfold findNodeByLabel at hf ⊢
      rw [List.find?_append, hf]
      simp
    rw [h1]
    unfold findOrCreate
    rw [h2]
  · have h1 : findOrCreate st t n = (node.nid, st) := by
      unfold findOrCreate
      rw [hf]
    rw [h1]
    unfold findOrCreate
    rw [hf]

theorem normalizeEntities_single (t l : List Nat) (hl : pyStrip l ≠ []) :
    normalizeEntities t [mkRawEnt t l] =
      [{ etype := t, label := normalizeLabel l, description := none, properties := [] }] := by
  unfold normalizeEntities normStep mkRawEnt
  simp only [List.foldl_cons, List.foldl_nil]
  rw [if_neg hl]
  rfl

/-! ## Invariants of the candidate-pair loops -/

theorem candStep_inv (test : Nat → Nat → Bool) (P : Nat → Nat → Prop) (src dst : Nat)
    (st : PairState)
    (hnodup : (st.callsOut.map (fun pr => pairKey pr.1 pr.2)).Nodup)
    (hsub : ∀ pr ∈ st.callsOut, pairKey pr.1 pr.2 ∈ st.seen)
    (hP : ∀ pr ∈ st.callsOut, P pr.1 pr.2)
    (hd : test src dst = true → P src dst) :
    ((candStep test src st dst).callsOut.map (fun pr => pairKey pr.1 pr.2)).Nodup ∧
    (∀ pr ∈ (candStep test src st dst).callsOut,
      pairKey pr.1 pr.2 ∈ (candStep test src st dst).seen) ∧
    (∀ pr ∈ (candStep test src st dst).callsOut, P pr.1 pr.2) := by
  unfold candStep
  by_cases hds : dst = src
  · rw [if_pos hds]
    exact ⟨hnodup, hsub, hP⟩
  · rw [if_neg hds]
    by_cases hkey : pairKey src dst ∈ st.seen
    · rw [if_pos hkey]
      exact ⟨hnodup, hsub, hP⟩
    · rw [if_neg hkey]
      by_cases htest : test src dst = true
      · rw [if_pos htest]
        refine ⟨?_, ?_, ?_⟩
        · rw [List.map_append, List.nodup_append]
          refine ⟨hnodup, by simp, ?_⟩
          intro k hk1 hk2
          rw [List.mem_map] at hk1
          obtain ⟨pr, hpr, rfl⟩ := hk1
          simp only [List.map_cons, List.map_nil, List.mem_singleton] at hk2
          exact hkey (hk2 ▸ hsub pr hpr)
        · intro pr hpr
          rcases List.mem_append.mp hpr with hm | hm
          · exact List.mem_cons_of_mem _ (hsub pr hm)
          · rw [List.mem_singleton] at hm
            subst hm
            exact List.mem_cons_self _ _
        · intro pr hpr
          rcases List.mem_append.mp hpr with hm | hm
          · exact hP pr hm
          · rw [List.mem_singleton] at hm
            subst hm
            exact hd htest
      · rw [if_neg htest]
        refine ⟨hnodup, ?_, hP⟩
        intro pr hpr
        exact List.mem_cons_of_mem _ (hsub pr hpr)

theorem candFold_inv (test : Nat → Nat → Bool) (P : Nat → Nat → Prop) (src : Nat)
    (l : List Nat) :
    ∀ st : PairState,
      (st.callsOut.map (fun pr => pairKey pr.1 pr.2)).Nodup →
      (∀ pr ∈ st.callsOut, pairKey pr.1 pr.2 ∈ st.seen) →
      (∀ pr ∈ st.callsOut, P pr.1 pr.2) →
      (∀ d ∈ l, test src d = true → P src d) →
      ((l.foldl (candStep test src) st).callsOut.map
        (fun pr => pairKey pr.1 pr.2)).Nodup ∧
      (∀ pr ∈ (l.foldl (candStep test src) st).callsOut,
        pairKey pr.1 pr.2 ∈ (l.foldl (candStep test src) st).seen) ∧
      (∀ pr ∈ (l.foldl (candStep test src) st).callsOut, P pr.1 pr.2) := by
  induction l with
  | nil =>
    intro st h1 h2 h3 _
    exact ⟨h1, h2, h3⟩
  | cons d l ih =>
    intro st h1 h2 h3 hd
    simp only [List.foldl_cons]
    have step := candStep_inv test P src d st h1 h2 h3 (hd d (List.mem_cons_self d l))
    exact ih _ step.1 step.2.1 step.2.2 (fun q hq ht => hd q (List.mem_cons_of_mem d hq) ht)

theorem strat2Src_inv (g : Corpus) (src : Nat) (st : PairState)
    (h1 : (st.callsOut.map (fun pr => pairKey pr.1 pr.2)).Nodup)
    (h2 : ∀ pr ∈ st.callsOut, pairKey pr.1 pr.2 ∈ st.seen)
    (h3 : ∀ pr ∈ st.callsOut, sharesCat g pr.1 pr.2 = true) :
    (((strat2Src g st src).callsOut.map (fun pr => pairKey pr.1 pr.2)).Nodup) ∧
    (∀ pr ∈ (strat2Src g st src).callsOut,
      pairKey pr.1 pr.2 ∈ (strat2Src g st src).seen) ∧
    (∀ pr ∈ (strat2Src g st src).callsOut, sharesCat g pr.1 pr.2 = true) := by
  unfold strat2Src
  by_cases hc : conn g src = []
  · rw [if_pos hc]
    exact ⟨h1, h2, h3⟩
  · rw [if_neg hc]
    exact candFold_inv _ (fun a b => sharesCat g a b = true) src _ st h1 h2 h3
      (fun d _ ht => ht)

theorem strat2_papers_inv (g : Corpus) (papers : List Nat) :
    ∀ st : PairState,
      (st.callsOut.map (fun pr => pairKey pr.1 pr.2)).Nodup →
      (∀ pr ∈ st.callsOut, pairKey pr.1 pr.2 ∈ st.seen) →
      (∀ pr ∈ st.callsOut, sharesCat g pr.1 pr.2 = true) →
      ((papers.foldl (strat2Src g) st).callsOut.map
        (fun pr => pairKey pr.1 pr.2)).Nodup ∧
      (∀ pr ∈ (papers.foldl (strat2Src g) st).callsOut, sharesCat g pr.1 pr.2 = true) := by
  induction papers with
  | nil =>
    intro st h1 _ h3
    exact ⟨h1, h3⟩
  | cons p papers ih =>
    intro st h1 h2 h3
    simp only [List.foldl_cons]
    have step := strat2Src_inv g p st h1 h2 h3
    exact ih _ step.1 step.2.1 step.2.2

theorem strat1Src_inv (g : SimCorpus) (src : Nat) (st : PairState)
    (h1 : (st.callsOut.map (fun pr => pairKey pr.1 pr.2)).Nodup)
    (h2 : ∀ pr ∈ st.callsOut, pairKey pr.1 pr.2 ∈ st.seen)
    (h3 : ∀ pr ∈ st.callsOut,
      g.pd pr.1 ≠ [] ∧ pr.2 ∈ g.nbrs pr.1 ∧ pdL g pr.2 ≠ [] ∧
        ∃ n ∈ g.pd pr.1, n ∈ pdL g pr.2) :
    (((strat1Src g st src).callsOut.map (fun pr => pairKey pr.1 pr.2)).Nodup) ∧
    (∀ pr ∈ (strat1Src g st src).callsOut,
      pairKey pr.1 pr.2 ∈ (strat1Src g st src).seen) ∧
    (∀ pr ∈ (strat1Src g st src).callsOut,
      g.pd pr.1 ≠ [] ∧ pr.2 ∈ g.nbrs pr.1 ∧ pdL g pr.2 ≠ [] ∧
        ∃ n ∈ g.pd pr.1, n ∈ pdL g pr.2) := by
  unfold strat1Src
  by_cases hc : (g.pd src).isEmpty = true
  · rw [if_pos hc]
    exact ⟨h1, h2, h3⟩
  · rw [if_neg hc]
    refine candFold_inv (strat1Test g)
      (fun a b => g.pd a ≠ [] ∧ b ∈ g.nbrs a ∧ pdL g b ≠ [] ∧ ∃ n ∈ g.pd a, n ∈ pdL g b)
      src _ st h1 h2 h3 ?_
    intro d hd ht
    unfold strat1Test at ht
    rw [Bool.and_eq_true, Bool.and_eq_true] at ht
    obtain ⟨⟨hne, hshare⟩, _⟩ := ht
    refine ⟨?_, hd, ?_, ?_⟩
    · intro h0
      rw [h0] at hc
      exact hc rfl
    · intro h0
      rw [h0] at hne
      simp at hne
    · rw [List.any_eq_true] at hshare
      obtain ⟨n, hn, hnd⟩ := hshare
      exact ⟨n, hn, of_decide_eq_true hnd⟩

theorem strat1_papers_inv (g : SimCorpus) (papers : List Nat) :
    ∀ st : PairState,
      (st.callsOut.map (fun pr => pairKey pr.1 pr.2)).Nodup →
      (∀ pr ∈ st.callsOut, pairKey pr.1 pr.2 ∈ st.seen) →
      (∀ pr ∈ st.callsOut,
        g.pd pr.1 ≠ [] ∧ pr.2 ∈ g.nbrs pr.1 ∧ pdL g pr.2 ≠ [] ∧
          ∃ n ∈ g.pd pr.1, n ∈ pdL g pr.2) →
      ∀ pr ∈ (papers.foldl (strat1Src g) st).callsOut,
        g.pd pr.1 ≠ [] ∧ pr.2 ∈ g.nbrs pr.1 ∧ pdL g pr.2 ≠ [] ∧
          ∃ n ∈ g.pd pr.1, n ∈ pdL g pr.2 := by
  induction papers with
  | nil =>
    intro st _ _ h3
    exact h3
  | cons p papers ih =>
    intro st h1 h2 h3
    simp only [List.foldl_cons]
    have step := strat1Src_inv g p st h1 h2 h3
    exact ih _ step.1 step.2.1 step.2.2

/-! ## The claims -/

/-- C6: label normalization is idempotent — for every string x,
normalize (normalize x) = normalize x. -/
theorem normalize_label_idempotent (x : List Nat) :
    normalizeLabel (normalizeLabel x) = normalizeLabel x :=
  normalizeLabel_idem x

theorem normalize_label_idempotent_witness :
    normalizeLabel (normalizeLabel strRaw3d) = normalizeLabel strRaw3d :=
  normalize_label_idempotent strRaw3d

/-- C5: the label normalizer is a pure function that strips control
characters and null bytes, collapses and trims whitespace, and
title-cases each whitespace-delimited token unless the token is entirely
uppercase and longer than one character (then kept verbatim); in
particular PSNR is preserved and the padded string
"3d gaussian splatting" becomes "3d Gaussian Splatting". -/
theorem normalize_label_spec :
    normalizeLabel strPSNR = strPSNR ∧
    normalizeLabel strRaw3d = strNorm3d ∧
    (∀ s : List Nat,
      normalizeLabel s =
        joinSpace ((splitWs (pyStrip (sanitizeString s))).map normWord)) ∧
    (∀ w : List Nat, pyIsUpper w = true → 1 < w.length → normWord w = w) ∧
    (∀ w : List Nat, ¬ (pyIsUpper w = true ∧ 1 < w.length) →
      normWord w = pyCapitalize w) := by
  refine ⟨by decide, by decide, normalizeLabel_eq, ?_, ?_⟩
  · intro w h1 h2
    unfold normWord
    rw [if_pos (by simp [h1, h2])]
  · intro w h
    unfold normWord
    rw [if_neg (by simpa using h)]

theorem normalize_label_spec_witness :
    pyIsUpper strPSNR = true ∧ 1 < strPSNR.length ∧ normWord strPSNR = strPSNR ∧
    ¬ (pyIsUpper strpsnr = true ∧ 1 < strpsnr.length) ∧
    normWord strpsnr = pyCapitalize strpsnr :=
  ⟨by decide, by decide,
   normalize_label_spec.2.2.2.1 strPSNR (by decide) (by decide),
   by decide,
   normalize_label_spec.2.2.2.2 strpsnr (by decide)⟩

/-- C2: a cross-paper oracle result of type IMPROVES_ON, EXTENDS or
REFINES_CONCEPT for ordered input (paper1, paper2) creates the edge
paper2 -> paper1 (direction inverted); every other type preserves the
input order, paper1 -> paper2. -/
theorem cross_paper_edge_direction (p1 p2 : Nat) (r : OracleRel) (t : List Nat)
    (h : r.rtype = some t) :
    ((t = tIMPROVES ∨ t = tEXTENDS ∨ t = tREFINES) →
      (mkCrossEdge p1 p2 r).fromId = p2 ∧ (mkCrossEdge p1 p2 r).toId = p1) ∧
    (t ∉ invertedTypes →
      (mkCrossEdge p1 p2 r).fromId = p1 ∧ (mkCrossEdge p1 p2 r).toId = p2) := by
  constructor
  · intro ht
    have hinv : isInvertedRT r.rtype = true := by
      rw [h]
      unfold isInvertedRT invertedTypes
      rcases ht with rfl | rfl | rfl <;> simp
    simp [mkCrossEdge, hinv]
  · intro ht
    have hinv : isInvertedRT r.rtype = false := by
      rw [h]
      unfold isInvertedRT
      simpa using ht
    simp [mkCrossEdge, hinv]

theorem cross_paper_edge_direction_witness :
    ((mkCrossEdge 5 9 { rtype := some tIMPROVES, confidence := some (4/5) }).fromId = 9 ∧
     (mkCrossEdge 5 9 { rtype := some tIMPROVES, confidence := some (4/5) }).toId = 5) ∧
    ((mkCrossEdge 5 9 { rtype := some tCOMPARES, confidence := none }).fromId = 5 ∧
     (mkCrossEdge 5 9 { rtype := some tCOMPARES, confidence := none }).toId = 9) :=
  ⟨(cross_paper_edge_direction 5 9 _ tIMPROVES rfl).1 (Or.inl rfl),
   (cross_paper_edge_direction 5 9 _ tCOMPARES rfl).2 (by decide)⟩

/-- C4: relationship validation stores a confidence clamped to [0, 1]:
confidence 1.7 is stored as 1.0 and -0.2 as 0.0, and every validated
relationship's confidence lies in [0, 1]. -/
theorem relationship_confidence_clamped :
    ((validateRelationships
        [{ fromLabel := [97], toLabel := [98], rtype := [99],
           confidence := some ((17 : Rat)/10) }]).map VRel.confidence = [1]) ∧
    ((validateRelationships
        [{ fromLabel := [97], toLabel := [98], rtype := [99],
           confidence := some (-((2 : Rat)/10)) }]).map VRel.confidence = [0]) ∧
    (∀ (r : RawRel) (c : Rat) (v : VRel), r.confidence = some c →
      validateRel r = some v → v.confidence = max 0 (min 1 c)) ∧
    (∀ (rels : List RawRel) (v : VRel), v ∈ validateRelationships rels →
      0 ≤ v.confidence ∧ v.confidence ≤ 1) := by
  have h17 : max (0 : Rat) (min 1 ((17 : Rat)/10)) = 1 := by
    rw [max_def, min_def]; norm_num
  have h02 : max (0 : Rat) (min 1 (-((2 : Rat)/10))) = 0 := by
    rw [max_def, min_def]; norm_num
  refine ⟨?_, ?_, ?_, ?_⟩
  · show [max (0 : Rat) (min 1 ((17 : Rat)/10))] = [1]
    rw [h17]
  · show [max (0 : Rat) (min 1 (-((2 : Rat)/10)))] = [0]
    rw [h02]
  · intro r c v hc hv
    rw [validateRel_some_confidence hv, hc]
  · intro rels v hv
    rw [validateRelationships, List.mem_filterMap] at hv
    obtain ⟨r, _, hr⟩ := hv
    rw [validateRel_some_confidence hr]
    rcases r.confidence with _ | c
    · exact ⟨by norm_num, by norm_num⟩
    · exact ⟨le_max_left 0 _, max_le (by norm_num) (min_le_left 1 c)⟩

theorem relationship_confidence_clamped_witness :
    (0 ≤ max (0 : Rat) (min 1 ((17 : Rat)/10)) ∧
      max (0 : Rat) (min 1 ((17 : Rat)/10)) ≤ 1) ∧
    ({ fromLabel := [97], toLabel := [98], rtype := [99],
       confidence := max 0 (min 1 ((17 : Rat)/10)) } : VRel).confidence =
      max 0 (min 1 ((17 : Rat)/10)) :=
  ⟨relationship_confidence_clamped.2.2.2
    [{ fromLabel := [97], toLabel := [98], rtype := [99],
       confidence := some ((17 : Rat)/10) }]
    { fromLabel := [97], toLabel := [98], rtype := [99],
      confidence := max 0 (min 1 ((17 : Rat)/10)) }
    (List.mem_singleton.mpr rfl),
   relationship_confidence_clamped.2.2.1
    { fromLabel := [97], toLabel := [98], rtype := [99],
      confidence := some ((17 : Rat)/10) }
    ((17 : Rat)/10)
    { fromLabel := [97], toLabel := [98], rtype := [99],
      confidence := max 0 (min 1 ((17 : Rat)/10)) }
    rfl rfl⟩

/-- C10: validate_and_normalize always returns an empty tasks list, so
the task entities contribute nothing to the entity list ingest_paper
iterates over. -/
theorem validation_drops_tasks (r : ExtractionResult) :
    (validateAndNormalize r).tasks = [] ∧
    allEntities (validateAndNormalize r) =
      (validateAndNormalize r).concepts ++ (validateAndNormalize r).methods ++
      (validateAndNormalize r).datasets ++ (validateAndNormalize r).metrics ++
      (validateAndNormalize r).authors := by
  refine ⟨rfl, ?_⟩
  simp [allEntities, validateAndNormalize]

theorem validation_drops_tasks_witness :
    (validateAndNormalize
      { concepts := [], methods := [], datasets := [], metrics := [], authors := [],
        tasks := [mkRawEnt conceptT strNRF], relationships := [] }).tasks = [] :=
  (validation_drops_tasks
    { concepts := [], methods := [], datasets := [], metrics := [], authors := [],
      tasks := [mkRawEnt conceptT strNRF], relationships := [] }).1

/-- C9: a relationship whose from/to label does not resolve in the batch
map is dropped without aborting; every fully resolvable relationship is
still materialized, so the number of created edges equals the number of
resolvable relationships. -/
theorem unresolvable_relationship_dropped :
    (∀ (nodes : List (List Nat × Nat)) (rels : List VRel),
      (materializeRels nodes rels).length = (rels.filter (resolvable nodes)).length) ∧
    (∀ (nodes : List (List Nat × Nat)) (pre post : List VRel) (r : VRel),
      resolvable nodes r = false →
      materializeRels nodes (pre ++ r :: post) = materializeRels nodes (pre ++ post)) := by
  constructor
  · intro nodes rels
    induction rels with
    | nil => rfl
    | cons r rels ih =>
      rcases h1 : lookupStr r.fromLabel nodes with _ | f <;>
        rcases h2 : lookupStr r.toLabel nodes with _ | t <;>
        simpa [materializeRels, List.filterMap_cons, List.filter_cons, resolvable, h1, h2]
          using ih
  · intro nodes pre post r h
    unfold materializeRels
    rw [List.filterMap_append, List.filterMap_append, List.filterMap_cons]
    have hnone :
        (match lookupStr r.fromLabel nodes, lookupStr r.toLabel nodes with
          | some f, some t =>
            some { fromId := f, toId := t, etype := r.rtype,
                   confidence := r.confidence : EdgeM }
          | _, _ => none) = none := by
      unfold resolvable at h
      rcases h1 : lookupStr r.fromLabel nodes with _ | f <;>
        rcases h2 : lookupStr r.toLabel nodes with _ | t <;>
        simp [h1, h2] at h ⊢
    rw [hnone]

theorem unresolvable_relationship_dropped_witness :
    ((materializeRels [([97], 0), ([98], 1)]
        [{ fromLabel := [97], toLabel := [98], rtype := [99], confidence := 1 },
         { fromLabel := [97], toLabel := [122], rtype := [99], confidence := 1 },
         { fromLabel := [98], toLabel := [97], rtype := [99], confidence := 1 }]).length =
      ([{ fromLabel := [97], toLabel := [98], rtype := [99], confidence := (1 : Rat) },
         { fromLabel := [97], toLabel := [122], rtype := [99], confidence := 1 },
         { fromLabel := [98], toLabel := [97], rtype := [99], confidence := 1 }].filter
          (resolvable [([97], 0), ([98], 1)])).length) ∧
    (([{ fromLabel := [97], toLabel := [122], rtype := [99],
         confidence := (1 : Rat) }] : List VRel).filter
        (resolvable [([97], 0), ([98], 1)])).length = 0 :=
  ⟨unresolvable_relationship_dropped.1 [([97], 0), ([98], 1)] _, by decide⟩

/-- C7: intra-batch dedup groups same-type entities by the lowercase of
the normalized label; the first entity of a group is canonical, a later
member's description is merged only when the canonical one is empty, and
its properties overwrite on key collision; the three concept labels
"3D Gaussian Splatting", "3d gaussian splatting",
"Neural Radiance Fields" therefore yield exactly 2 canonical
entities. -/
theorem intra_batch_dedup :
    (normalizeEntities conceptT
      [mkRawEnt conceptT str3DGS, mkRawEnt conceptT str3dgs,
       mkRawEnt conceptT strNRF]).length = 2 ∧
    (∀ (t : List Nat) (e1 e2 : EEnt),
      pyStrip e1.label ≠ [] → pyStrip e2.label ≠ [] →
      lowerStr (normalizeLabel e1.label) = lowerStr (normalizeLabel e2.label) →
      normalizeEntities t [e1, e2] =
        [{ etype := t,
           label := normalizeLabel e1.label,
           description :=
             if optTruthy e2.description && !optTruthy (sanitizeDesc e1.description)
             then e2.description else sanitizeDesc e1.description,
           properties := dictUpdate (sanitizeProps e1.properties) e2.properties }]) := by
  constructor
  · decide
  · intro t e1 e2 h1 h2 hk
    unfold normalizeEntities
    simp only [List.foldl_cons, List.foldl_nil]
    have s1 : normStep t [] e1 =
        [(lowerStr (normalizeLabel e1.label),
          { etype := t, label := normalizeLabel e1.label,
            description := sanitizeDesc e1.description,
            properties := sanitizeProps e1.properties })] := by
      unfold normStep
      rw [if_neg h1]
      rfl
    rw [s1]
    unfold normStep
    rw [if_neg h2]
    have hlook : lookupStr (lowerStr (normalizeLabel e2.label))
        [(lowerStr (normalizeLabel e1.label),
          ({ etype := t, label := normalizeLabel e1.label,
             description := sanitizeDesc e1.description,
             properties := sanitizeProps e1.properties } : EEnt))] =
        some { etype := t, label := normalizeLabel e1.label,
               description := sanitizeDesc e1.description,
               properties := sanitizeProps e1.properties } := by
      unfold lookupStr
      rw [if_pos hk]
    rw [hlook]
    unfold setKey mergeInto
    simp only [List.map_cons, List.map_nil]
    rw [if_pos hk]

theorem intra_batch_dedup_witness :
    pyStrip str3DGS ≠ [] ∧ pyStrip str3dgs ≠ [] ∧
    lowerStr (normalizeLabel str3DGS) = lowerStr (normalizeLabel str3dgs) ∧
    normalizeEntities conceptT [mkRawEnt conceptT str3DGS, mkRawEnt conceptT str3dgs] =
      [{ etype := conceptT, label := normalizeLabel str3DGS,
         description :=
           if optTruthy (mkRawEnt conceptT str3dgs).description &&
              !optTruthy (sanitizeDesc (mkRawEnt conceptT str3DGS).description)
           then (mkRawEnt conceptT str3dgs).description
           else sanitizeDesc (mkRawEnt conceptT str3DGS).description,
         properties :=
           dictUpdate (sanitizeProps (mkRawEnt conceptT str3DGS).properties)
             (mkRawEnt conceptT str3dgs).properties }] :=
  ⟨by decide, by decide, by decide,
   intra_batch_dedup.2 conceptT (mkRawEnt conceptT str3DGS) (mkRawEnt conceptT str3dgs)
     (by decide) (by decide) (by decide)⟩

/-- C1, counterexample: the store lookup in `find_node_by_label` matches
the label exactly, and the normalizer preserves the acronym PSNR while
turning psnr into Psnr, so two sightings of case-insensitively equal,
whitespace-normalized labels of the same type (metric PSNR in one
document, metric psnr in a later one) create two distinct nodes instead
of reusing one. -/
theorem entity_resolution_case_counterexample :
    claimKey strPSNR = claimKey strpsnr ∧
    normalizeLabel strpsnr = strPsnr ∧
    (ingestDoc store0 metricT [strPSNR]).1 = [0] ∧
    (ingestDoc (ingestDoc store0 metricT [strPSNR]).2 metricT [strpsnr]).1 = [1] ∧
    (ingestDoc (ingestDoc store0 metricT [strPSNR]).2 metricT [strpsnr]).2.nodes.map
      NodeM.ntype = [metricT, metricT] ∧
    (ingestDoc (ingestDoc store0 metricT [strPSNR]).2 metricT [strpsnr]).2.nodes.map
      NodeM.label = [strPSNR, strPsnr] := by
  decide

/-- C1, amended: find-or-create reuses the existing node exactly when
the incoming entity's normalized label and type match an existing node
letter-for-letter; in particular a second sighting whose label
normalizes to the same string as the first resolves to the same node id
and creates nothing new. -/
theorem entity_resolution_reuses_on_equal_normalized_label
    (st : Store) (t l1 l2 : List Nat)
    (h1 : pyStrip l1 ≠ []) (h2 : pyStrip l2 ≠ [])
    (h : normalizeLabel l1 = normalizeLabel l2) :
    (ingestDoc (ingestDoc st t [l1]).2 t [l2]).1 = (ingestDoc st t [l1]).1 := by
  unfold ingestDoc
  simp only [List.map_cons, List.map_nil]
  rw [normalizeEntities_single t l1 h1, normalizeEntities_single t l2 h2, ← h]
  unfold resolveEntities
  simp only [List.foldl_cons, List.foldl_nil, List.nil_append]
  exact congrArg (fun x => [x]) (findOrCreate_stable st t (normalizeLabel l1))

theorem entity_resolution_reuses_on_equal_normalized_label_witness :
    pyStrip strgaussian ≠ [] ∧ pyStrip strGaussian ≠ [] ∧
    normalizeLabel strgaussian = normalizeLabel strGaussian ∧
    (ingestDoc (ingestDoc store0 conceptT [strgaussian]).2 conceptT [strGaussian]).1 =
      (ingestDoc store0 conceptT [strgaussian]).1 :=
  ⟨by decide, by decide, by decide,
   entity_resolution_reuses_on_equal_normalized_label store0 conceptT strgaussian
     strGaussian (by decide) (by decide) (by decide)⟩

/-- C3: the shared-neighbor candidate pair generator evaluates each
unordered pair of distinct papers at most once, passes a pair to the
oracle only when the two papers share a dataset, method or concept node,
and on the 5-paper corpus where exactly A,B share a dataset and B,C
share a method it evaluates exactly the unordered pairs (A,B) and
(B,C). -/
theorem shared_neighbor_pair_generation :
    (∀ g : Corpus, ((strat2Calls g).map (fun pr => pairKey pr.1 pr.2)).Nodup) ∧
    (∀ (g : Corpus) (pr : Nat × Nat), pr ∈ strat2Calls g →
      sharesCat g pr.1 pr.2 = true) ∧
    (strat2Calls exCorpus).map (fun pr => pairKey pr.1 pr.2) = [(0, 1), (1, 2)] := by
  have main : ∀ g : Corpus,
      ((strat2Calls g).map (fun pr => pairKey pr.1 pr.2)).Nodup ∧
      ∀ pr ∈ strat2Calls g, sharesCat g pr.1 pr.2 = true := by
    intro g
    unfold strat2Calls
    by_cases hlen : g.papers.length < 2
    · rw [if_pos hlen]
      exact ⟨List.nodup_nil, by simp⟩
    · rw [if_neg hlen]
      exact strat2_papers_inv g g.papers { seen := [], callsOut := [] }
        (by simp) (by simp) (by simp)
  exact ⟨fun g => (main g).1, fun g pr hpr => (main g).2 pr hpr, by decide⟩

theorem shared_neighbor_pair_generation_witness :
    (0, 1) ∈ strat2Calls exCorpus ∧ sharesCat exCorpus 0 1 = true :=
  ⟨by decide, shared_neighbor_pair_generation.2.1 exCorpus (0, 1) (by decide)⟩

/-- C8: the similarity-based candidate pair generator passes a pair
(P, Q) to the oracle only when P has a dataset neighbor, Q is among the
similar papers returned for P, Q has a dataset neighbor, and the two
dataset sets intersect; any pair failing one of the conditions is
skipped. -/
theorem similarity_pair_pruning :
    (∀ (g : SimCorpus) (pr : Nat × Nat), pr ∈ strat1Calls g →
      g.pd pr.1 ≠ [] ∧ pr.2 ∈ g.nbrs pr.1 ∧ pdL g pr.2 ≠ [] ∧
        ∃ n ∈ g.pd pr.1, n ∈ pdL g pr.2) ∧
    strat1Calls exSim = [(1, 2)] := by
  constructor
  · intro g pr hpr
    unfold strat1Calls at hpr
    by_cases hlen : g.papers.length < 2
    · rw [if_pos hlen] at hpr
      simp at hpr
    · rw [if_neg hlen] at hpr
      exact strat1_papers_inv g g.papers { seen := [], callsOut := [] }
        (by simp) (by simp) (by simp) pr hpr
  · decide

theorem similarity_pair_pruning_witness :
    (1, 2) ∈ strat1Calls exSim ∧
    (exSim.pd 1 ≠ [] ∧ 2 ∈ exSim.nbrs 1 ∧ pdL exSim 2 ≠ [] ∧
      ∃ n ∈ exSim.pd 1, n ∈ pdL exSim 2) :=
  ⟨by decide, similarity_pair_pruning.1 exSim (1, 2) (by decide)⟩

end RKG
